import Mathlib

/-!
# SIMA supervisor: shallow embedding and verification

This file embeds the supervisor kernel of the SIMA init system
(`src/sima-init/src/service.rs`, `src/sima-init/src/ipc.rs`,
`src/sima-init/src/config.rs`) and its wire protocol
(`src/sima-proto/src/lib.rs`) in Lean 4 and proves the specified
properties of the service table, the reaper, the control server, the
shutdown coordinator and the postcard-style codec.

Rust `String` values are represented by their UTF-8 byte sequences
(`List Nat`); `HashMap`s by association lists with unique keys
(uniqueness is part of the service-table invariant and holds by
`HashMap` construction); `Pid` (i32) by `Int`.  The nondeterministic
environment (the kernel) enters as explicit parameters: the outcome of
`fork`/`exec` is a `SpawnResult`, the stream of `waitpid` results is a
list, and the events seen while the shutdown coordinator waits are a
list of `ShutdownEvent`s.
-/

/-- Rust `String`, as its UTF-8 byte sequence. -/
abbrev RStr := List Nat

/-! ## Association-list maps (model of `std::collections::HashMap`) -/

/-- `HashMap::get`: value of the first entry with the given key. -/
def alookup {α β : Type} [DecidableEq α] : List (α × β) → α → Option β
  | [], _ => none
  | e :: rest, k => if e.1 = k then some e.2 else alookup rest k

/-- `HashMap::insert`: replace the entry for the key, or append it. -/
def aupdate {α β : Type} [DecidableEq α] : List (α × β) → α → β → List (α × β)
  | [], k, v => [(k, v)]
  | e :: rest, k, v => if e.1 = k then (k, v) :: rest else e :: aupdate rest k v

/-- `HashMap::remove`: drop every entry with the given key. -/
def aremove {α β : Type} [DecidableEq α] (l : List (α × β)) (k : α) : List (α × β) :=
  l.filter (fun e => decide (e.1 ≠ k))

/-- The key list of an association list. -/
def akeys {α β : Type} (l : List (α × β)) : List α := l.map Prod.fst

theorem akeys_cons {α β : Type} (e : α × β) (l : List (α × β)) :
    akeys (e :: l) = e.1 :: akeys l := rfl

section AListLemmas

variable {α β : Type} [DecidableEq α]

theorem alookup_eq_some_mem {l : List (α × β)} {k : α} {v : β}
    (h : alookup l k = some v) : (k, v) ∈ l := by
  induction l with
  | nil => simp [alookup] at h
  | cons e rest ih =>
    rw [alookup] at h
    by_cases he : e.1 = k
    · rw [if_pos he] at h
      have hv : e.2 = v := by injection h
      have he2 : e = (k, v) := by
        cases e
        simp_all
      rw [← he2]
      exact List.mem_cons_self _ _
    · rw [if_neg he] at h
      exact List.mem_cons_of_mem _ (ih h)

theorem alookup_isSome_iff_mem_keys {l : List (α × β)} {k : α} :
    (alookup l k).isSome ↔ k ∈ akeys l := by
  induction l with
  | nil => simp [alookup, akeys]
  | cons e rest ih =>
    rw [alookup, akeys_cons]
    by_cases he : e.1 = k
    · rw [if_pos he, he]
      simp
    · rw [if_neg he]
      simp [ih, List.mem_cons, Ne.symm he]

theorem alookup_eq_none_iff_not_mem_keys {l : List (α × β)} {k : α} :
    alookup l k = none ↔ k ∉ akeys l := by
  rw [← alookup_isSome_iff_mem_keys]
  cases alookup l k <;> simp

theorem alookup_eq_some_of_mem {l : List (α × β)} {e : α × β}
    (hnd : (akeys l).Nodup) (hm : e ∈ l) : alookup l e.1 = some e.2 := by
  induction l with
  | nil => simp at hm
  | cons f rest ih =>
    rcases List.mem_cons.mp hm with h | h
    · subst h
      simp [alookup]
    · have hne : f.1 ≠ e.1 := by
        intro hc
        have hmem : e.1 ∈ akeys rest := by
          simp only [akeys]
          exact List.mem_map_of_mem Prod.fst h
        rw [← hc] at hmem
        have hnd' : f.1 ∉ akeys rest := by
          rw [akeys_cons] at hnd
          exact (List.nodup_cons.mp hnd).1
        exact hnd' hmem
      rw [alookup, if_neg hne]
      have hnd' : (akeys rest).Nodup := by
        rw [akeys_cons] at hnd
        exact (List.nodup_cons.mp hnd).2
      exact ih hnd' h

theorem alookup_aupdate_self (l : List (α × β)) (k : α) (v : β) :
    alookup (aupdate l k v) k = some v := by
  induction l with
  | nil =>
    rw [aupdate, alookup, if_pos rfl]
  | cons e rest ih =>
    rw [aupdate]
    by_cases he : e.1 = k
    · rw [if_pos he, alookup, if_pos rfl]
    · rw [if_neg he, alookup, if_neg he]
      exact ih

theorem alookup_aupdate_ne {l : List (α × β)} {k k' : α} (v : β) (h : k' ≠ k) :
    alookup (aupdate l k v) k' = alookup l k' := by
  induction l with
  | nil =>
    simp [aupdate, alookup, Ne.symm h]
  | cons e rest ih =>
    rw [aupdate]
    by_cases he : e.1 = k
    · have h2 : e.1 ≠ k' := by rw [he]; exact Ne.symm h
      rw [if_pos he, alookup, alookup, if_neg h2]
      simp [Ne.symm h]
    · rw [if_neg he, alookup, alookup]
      by_cases he' : e.1 = k'
      · rw [if_pos he', if_pos he']
      · rw [if_neg he', if_neg he']
        exact ih

theorem aupdate_self {l : List (α × β)} {k : α} {v : β}
    (h : alookup l k = some v) : aupdate l k v = l := by
  induction l with
  | nil => simp [alookup] at h
  | cons e rest ih =>
    by_cases he : e.1 = k
    · simp only [alookup, he, if_pos, Option.some.injEq] at h
      cases e
      simp_all [aupdate]
    · simp only [alookup, he, if_neg, not_false_iff] at h
      simp [aupdate, he, ih h]

theorem akeys_aupdate_mem {l : List (α × β)} {k : α} (v : β) (h : k ∈ akeys l) :
    akeys (aupdate l k v) = akeys l := by
  induction l with
  | nil => simp [akeys] at h
  | cons e rest ih =>
    rw [aupdate]
    by_cases he : e.1 = k
    · rw [if_pos he, akeys_cons, akeys_cons, he]
    · have hr : k ∈ akeys rest := by
        rw [akeys_cons] at h
        rcases List.mem_cons.mp h with h' | h'
        · exact absurd h'.symm he
        · exact h'
      rw [if_neg he, akeys_cons, akeys_cons, ih hr]

theorem akeys_aupdate_not_mem {l : List (α × β)} {k : α} (v : β) (h : k ∉ akeys l) :
    akeys (aupdate l k v) = akeys l ++ [k] := by
  induction l with
  | nil => rfl
  | cons e rest ih =>
    have he : e.1 ≠ k := by
      intro hc
      exact h (by rw [akeys_cons, hc]; exact List.mem_cons_self _ _)
    have hr : k ∉ akeys rest := by
      intro hc
      exact h (by rw [akeys_cons]; exact List.mem_cons_of_mem _ hc)
    rw [aupdate, if_neg he, akeys_cons, akeys_cons, ih hr, List.cons_append]

theorem nodup_akeys_aupdate {l : List (α × β)} {k : α} (v : β)
    (h : (akeys l).Nodup) : (akeys (aupdate l k v)).Nodup := by
  by_cases hm : k ∈ akeys l
  · rw [akeys_aupdate_mem v hm]
    exact h
  · rw [akeys_aupdate_not_mem v hm]
    simp [List.nodup_append, h, hm]

theorem mem_aupdate_elim {l : List (α × β)} {k : α} {v : β} {e : α × β}
    (hnd : (akeys l).Nodup) (hm : e ∈ aupdate l k v) :
    e = (k, v) ∨ (e ∈ l ∧ e.1 ≠ k) := by
  induction l with
  | nil =>
    rw [aupdate] at hm
    left
    rcases List.mem_cons.mp hm with h | h
    · exact h
    · simp at h
  | cons f rest ih =>
    rw [akeys_cons, List.nodup_cons] at hnd
    rw [aupdate] at hm
    by_cases hf : f.1 = k
    · rw [if_pos hf] at hm
      rcases List.mem_cons.mp hm with h | h
      · left; exact h
      · right
        refine ⟨List.mem_cons_of_mem _ h, ?_⟩
        intro hc
        have hmem : e.1 ∈ akeys rest := by
          simp only [akeys]
          exact List.mem_map_of_mem Prod.fst h
        rw [hc, ← hf] at hmem
        exact hnd.1 hmem
    · rw [if_neg hf] at hm
      rcases List.mem_cons.mp hm with h | h
      · right
        subst h
        exact ⟨List.mem_cons_self _ _, hf⟩
      · rcases ih hnd.2 h with h' | h'
        · left; exact h'
        · right; exact ⟨List.mem_cons_of_mem _ h'.1, h'.2⟩

theorem mem_aupdate_of_ne {l : List (α × β)} {k : α} {v : β} {e : α × β}
    (hm : e ∈ l) (hne : e.1 ≠ k) : e ∈ aupdate l k v := by
  induction l with
  | nil => simp at hm
  | cons f rest ih =>
    rw [aupdate]
    by_cases hf : f.1 = k
    · rw [if_pos hf]
      rcases List.mem_cons.mp hm with h | h
      · subst h
        exact absurd hf hne
      · exact List.mem_cons_of_mem _ h
    · rw [if_neg hf]
      rcases List.mem_cons.mp hm with h | h
      · subst h
        exact List.mem_cons_self _ _
      · exact List.mem_cons_of_mem _ (ih h)

theorem mem_aremove_iff {l : List (α × β)} {k : α} {e : α × β} :
    e ∈ aremove l k ↔ e ∈ l ∧ e.1 ≠ k := by
  simp [aremove, List.mem_filter]

theorem alookup_aremove_self (l : List (α × β)) (k : α) :
    alookup (aremove l k) k = none := by
  cases h : alookup (aremove l k) k with
  | none => rfl
  | some v =>
    have := (mem_aremove_iff.mp (alookup_eq_some_mem h)).2
    simp at this

theorem alookup_aremove_ne {l : List (α × β)} {k k' : α} (h : k' ≠ k) :
    alookup (aremove l k) k' = alookup l k' := by
  induction l with
  | nil => rfl
  | cons e rest ih =>
    by_cases he : e.1 = k
    · have h1 : aremove (e :: rest) k = aremove rest k := by
        simp [aremove, List.filter_cons, he]
      have h2 : e.1 ≠ k' := by rw [he]; exact Ne.symm h
      rw [h1, ih, alookup, if_neg h2]
    · have h1 : aremove (e :: rest) k = e :: aremove rest k := by
        simp [aremove, List.filter_cons, he]
      rw [h1, alookup, alookup]
      by_cases he' : e.1 = k'
      · rw [if_pos he', if_pos he']
      · rw [if_neg he', if_neg he', ih]

theorem nodup_akeys_aremove {l : List (α × β)} (k : α)
    (h : (akeys l).Nodup) : (akeys (aremove l k)).Nodup := by
  have hs : List.Sublist (aremove l k) l := List.filter_sublist l
  exact List.Nodup.sublist (List.Sublist.map Prod.fst hs) h

end AListLemmas

/-! ## Data model (`service.rs`, `config.rs`, `sima-proto/lib.rs`) -/

/-- `ServiceConfig` from `config.rs`: name, optional description, command
line.  Strings are UTF-8 byte sequences. -/
structure ServiceConfig where
  name : RStr
  description : Option RStr
  cmdline : RStr
deriving DecidableEq, Repr

/-- `SimaConfig` from `config.rs`. -/
structure SimaConfig where
  services : List ServiceConfig
deriving DecidableEq, Repr

/-- `ServiceStatus` from `service.rs` (lines 19-23).  The Rust enum has
exactly the two variants `Running` and `Stopped`; there is no `Errored`
variant in the source. -/
inductive ServiceStatus where
  | Running
  | Stopped
deriving DecidableEq, Repr

/-- `ServiceState` from `service.rs`: optional pid and a status. -/
structure ServiceState where
  pid : Option Int
  status : ServiceStatus
deriving DecidableEq, Repr

/-- `ServiceState::default()`: no pid, `Stopped`. -/
def ServiceState.default : ServiceState := { pid := none, status := .Stopped }

/-- `ServiceInfo` from `sima-proto/src/lib.rs`. -/
structure ServiceInfo where
  name : RStr
  pid : Option Int
  running : Bool
deriving DecidableEq, Repr

/-- `ServiceManager` from `service.rs`: the three `HashMap`s, as
association lists. -/
structure ServiceManager where
  configs : List (RStr × ServiceConfig)
  states : List (RStr × ServiceState)
  pid_map : List (Int × RStr)
deriving DecidableEq, Repr

/-- Outcome of `ServiceManager::spawn_process` (fork + exec of
`/bin/sh -c "exec <cmdline>"` in its own process group): the kernel
either hands back a fresh pid or a spawn error.  This is the
environment's input to `launch_service`. -/
inductive SpawnResult where
  | ok (pid : Int)
  | err
deriving DecidableEq, Repr

/-- Unix signals the supervisor sends. -/
inductive Sig where
  | SIGTERM
  | SIGKILL
deriving DecidableEq, Repr

/-- `IpcCommand` from `ipc.rs` (the `Status` variant's oneshot reply
channel is modelled separately, as the `statusReply` argument of
`process_request`). -/
inductive IpcCommand where
  | start (name : RStr)
  | stop (name : RStr)
  | restart (name : RStr)
  | status
  | poweroff
  | reboot
  | softReboot
deriving DecidableEq, Repr

/-- Observable action of the supervisor: a signal sent to a process
group (`signal::kill(pgid, sig)`), or the processing of a queued
control command.  The shutdown coordinator's trace is a list of these;
proving that no `cmdProcessed` occurs in it is the formal reading of
"no ControlRequest is processed during shutdown". -/
inductive SAction where
  | signalSent (sig : Sig) (pgid : Int)
  | cmdProcessed (c : IpcCommand)
deriving DecidableEq, Repr

/-! ## Service manager operations (`service.rs`) -/

/-- `ServiceManager::new` (service.rs lines 46-60): insert a default
`Stopped` state and the config for every listed service, in order.
`HashMap::insert` silently replaces an existing entry, so a duplicate
name keeps only the later service file. -/
def new_step (m : ServiceManager) (sc : ServiceConfig) : ServiceManager :=
  { m with
    states := aupdate m.states sc.name ServiceState.default,
    configs := aupdate m.configs sc.name sc }

def ServiceManager.new (config : SimaConfig) : ServiceManager :=
  config.services.foldl new_step { configs := [], states := [], pid_map := [] }

/-- `ServiceManager::launch_service` (service.rs lines 81-104) acting on
one service's state and the pid map.  If the service is already
`Running` it returns unchanged; otherwise the spawn outcome `res`
decides: on success the state becomes `Running` with the new pid, which
is inserted into the reverse index; on failure the error is logged and
nothing is touched. -/
def launch_service (name : RStr) (state : ServiceState)
    (pid_map : List (Int × RStr)) (res : SpawnResult) :
    ServiceState × List (Int × RStr) :=
  if state.status = .Running then
    (state, pid_map)
  else
    match res with
    | .ok pid => ({ pid := some pid, status := .Running }, aupdate pid_map pid name)
    | .err => (state, pid_map)

/-- `ServiceManager::start_service` (service.rs lines 126-137): look up
the config (unknown name: warn and return), look up the state, and call
`launch_service`. -/
def start_service (m : ServiceManager) (name : RStr) (res : SpawnResult) :
    ServiceManager :=
  match alookup m.configs name with
  | none => m
  | some _ =>
    match alookup m.states name with
    | none => m
    | some st =>
      let r := launch_service name st m.pid_map res
      { m with states := aupdate m.states name r.1, pid_map := r.2 }

/-- `ServiceManager::stop_service` (service.rs lines 106-124): unknown
name or no pid: warn/log and return without doing anything; otherwise
send SIGTERM to the process group `-pid`.  The function never mutates
the table; it only emits signals (returned here as the second
component). -/
def stop_service (m : ServiceManager) (name : RStr) :
    ServiceManager × List SAction :=
  match alookup m.states name with
  | none => (m, [])
  | some st =>
    match st.pid with
    | none => (m, [])
    | some pid => (m, [SAction.signalSent .SIGTERM (-pid)])

/-- `ServiceManager::restart_service` (service.rs lines 139-145):
`stop_service` then immediately `start_service`. -/
def restart_service (m : ServiceManager) (name : RStr) (res : SpawnResult) :
    ServiceManager × List SAction :=
  let r := stop_service m name
  (start_service r.1 name res, r.2)

/-- `ServiceManager::get_status` (service.rs lines 147-161): project
every configured service to a `ServiceInfo`.  Read-only. -/
def get_status (m : ServiceManager) : List ServiceInfo :=
  m.configs.map (fun e =>
    match alookup m.states e.1 with
    | some s => { name := e.1, pid := s.pid, running := decide (s.status = .Running) }
    | none => { name := e.1, pid := none, running := false })

/-- `nix::sys::wait::WaitStatus`, restricted to what `waitpid(-1,
WNOHANG)` can deliver: a child exited normally, a child was killed by a
signal, or no child has changed state (`StillAlive`). -/
inductive WaitStatus where
  | exited (pid : Int)
  | signaled (pid : Int)
  | stillAlive
deriving DecidableEq, Repr

/-- `WaitStatus::pid()`: `StillAlive` carries no pid. -/
def WaitStatus.pidOf : WaitStatus → Option Int
  | .exited p => some p
  | .signaled p => some p
  | .stillAlive => none

/-- One result of the `waitpid` call inside `reap_zombies`' loop. -/
inductive WaitResult where
  | ok (ws : WaitStatus)
  | echild
  | errOther
deriving DecidableEq, Repr

/-- `ServiceManager::handle_process_exit` (service.rs lines 179-194):
if the wait status carries no pid, do nothing.  Otherwise remove the
pid from the reverse index; if it was present, mark the owning
service `Stopped` with no pid.  A pid not in the reverse index is a
reparented orphan: log and discard, no table change. -/
def handle_process_exit (m : ServiceManager) (ws : WaitStatus) : ServiceManager :=
  match ws.pidOf with
  | none => m
  | some pid =>
    match alookup m.pid_map pid with
    | none => m
    | some name =>
      { m with
        pid_map := aremove m.pid_map pid,
        states :=
          match alookup m.states name with
          | some _ => aupdate m.states name { pid := none, status := .Stopped }
          | none => m.states }

/-- `ServiceManager::reap_zombies` (service.rs lines 163-177): loop on
`waitpid(-1, WNOHANG)` results; stop at `StillAlive`, `ECHILD` or any
other error, otherwise handle the exit and continue.  The kernel's
stream of results is the list argument. -/
def reap_zombies (m : ServiceManager) : List WaitResult → ServiceManager
  | [] => m
  | .ok .stillAlive :: _ => m
  | .ok ws :: rest => reap_zombies (handle_process_exit m ws) rest
  | .echild :: _ => m
  | .errOther :: _ => m

/-- One supervisor operation at the event-loop boundary, with the
environment's choices (spawn outcomes, waitpid stream) made explicit.
`start`, `stop`, `restart` and `status` are the control commands
dispatched by `handle_ipc_command`; `reap` is the SIGCHLD branch of the
event loop; launching at startup (`run`) performs the same per-service
update as `start`. -/
inductive Event where
  | start (name : RStr) (res : SpawnResult)
  | stop (name : RStr)
  | restart (name : RStr) (res : SpawnResult)
  | status
  | reap (queue : List WaitResult)
deriving DecidableEq, Repr

/-- The table transformation of each event (`handle_ipc_command`,
service.rs lines 239-275, and the SIGCHLD branch of `event_loop`).
`status` only snapshots (`get_status`) and sends on the oneshot
channel; the table is untouched. -/
def applyEvent (m : ServiceManager) : Event → ServiceManager
  | .start name res => start_service m name res
  | .stop name => (stop_service m name).1
  | .restart name res => (restart_service m name res).1
  | .status => m
  | .reap queue => reap_zombies m queue

/-! ## The service-table invariant (spec §3 / §8, claim C1) -/

/-- The service-table invariant.  Key lists of all three maps are
duplicate-free (`HashMap` guarantee); configs and states have the same
name set; a state is `Running` exactly when it holds a pid; a held pid
is mapped back to the owning name by the reverse index; and every
reverse-index entry points at a state holding exactly that pid. -/
def Invariant (m : ServiceManager) : Prop :=
  (akeys m.configs).Nodup ∧
  (akeys m.states).Nodup ∧
  (akeys m.pid_map).Nodup ∧
  (∀ e ∈ m.states, e.1 ∈ akeys m.configs) ∧
  (∀ e ∈ m.configs, e.1 ∈ akeys m.states) ∧
  (∀ e ∈ m.states, (e.2.status = ServiceStatus.Running ↔ e.2.pid ≠ none)) ∧
  (∀ e ∈ m.states, ∀ p, e.2.pid = some p → alookup m.pid_map p = some e.1) ∧
  (∀ e ∈ m.pid_map, ∃ st, alookup m.states e.2 = some st ∧ st.pid = some e.1)

/-- Freshness of a spawn outcome: the kernel never hands out a pid that
is still tracked (such a pid is alive or an unreaped zombie, so `fork`
cannot return it). -/
def SpawnFresh (m : ServiceManager) : SpawnResult → Prop
  | .ok p => alookup m.pid_map p = none
  | .err => True

/-- Environment assumption of an event: spawn outcomes are fresh. -/
def EventOk (m : ServiceManager) : Event → Prop
  | .start _ res => SpawnFresh m res
  | .restart _ res => SpawnFresh m res
  | _ => True

theorem mem_akeys_aupdate_self {α β : Type} [DecidableEq α]
    (l : List (α × β)) (k : α) (v : β) : k ∈ akeys (aupdate l k v) := by
  by_cases h : k ∈ akeys l
  · rw [akeys_aupdate_mem v h]
    exact h
  · rw [akeys_aupdate_not_mem v h]
    exact List.mem_append_right _ (List.mem_singleton_self k)

theorem mem_akeys_aupdate {α β : Type} [DecidableEq α]
    {l : List (α × β)} {k' : α} (k : α) (v : β) (h : k' ∈ akeys l) :
    k' ∈ akeys (aupdate l k v) := by
  by_cases hm : k ∈ akeys l
  · rw [akeys_aupdate_mem v hm]
    exact h
  · rw [akeys_aupdate_not_mem v hm]
    exact List.mem_append_left _ h

/-- `stop_service` never changes the table. -/
theorem stop_service_fst (m : ServiceManager) (name : RStr) :
    (stop_service m name).1 = m := by
  unfold stop_service
  split
  · rfl
  · split <;> rfl

/-- Core step of invariant preservation: a successful spawn of a
non-running configured service with a fresh pid. -/
theorem invariant_insert {m : ServiceManager} {name : RStr} {st : ServiceState} {p : Int}
    (hInv : Invariant m)
    (hc : name ∈ akeys m.configs)
    (hs : alookup m.states name = some st)
    (hstop : st.status ≠ .Running)
    (hfresh : alookup m.pid_map p = none) :
    Invariant
      { m with
        states := aupdate m.states name { pid := some p, status := .Running },
        pid_map := aupdate m.pid_map p name } := by
  obtain ⟨h1, h2, h3, h4, h5, h6, h7, h8⟩ := hInv
  have hsname : name ∈ akeys m.states :=
    alookup_isSome_iff_mem_keys.mp (by rw [hs]; rfl)
  refine ⟨h1, nodup_akeys_aupdate _ h2, nodup_akeys_aupdate _ h3, ?_, ?_, ?_, ?_, ?_⟩
  · intro e he
    rcases mem_aupdate_elim h2 he with h | h
    · subst h
      exact hc
    · exact h4 e h.1
  · intro e he
    rw [akeys_aupdate_mem _ hsname]
    exact h5 e he
  · intro e he
    rcases mem_aupdate_elim h2 he with h | h
    · subst h
      simp
    · exact h6 e h.1
  · intro e he q hq
    rcases mem_aupdate_elim h2 he with h | h
    · subst h
      simp only [Option.some.injEq] at hq
      subst hq
      rw [alookup_aupdate_self]
    · have hold := h7 e h.1 q hq
      by_cases hqp : q = p
      · subst hqp
        rw [hfresh] at hold
        cases hold
      · rw [alookup_aupdate_ne _ hqp]
        exact hold
  · intro e he
    rcases mem_aupdate_elim h3 he with h | h
    · subst h
      refine ⟨{ pid := some p, status := .Running }, ?_, rfl⟩
      rw [alookup_aupdate_self]
    · obtain ⟨st', hst', hpid'⟩ := h8 e h.1
      by_cases hen : e.2 = name
      · rw [hen, hs] at hst'
        have hss : st = st' := by injection hst'
        subst hss
        have hmem : (name, st) ∈ m.states := alookup_eq_some_mem hs
        have hrun : st.status = ServiceStatus.Running :=
          (h6 (name, st) hmem).mpr (by simp [hpid'])
        exact absurd hrun hstop
      · refine ⟨st', ?_, hpid'⟩
        rw [alookup_aupdate_ne _ hen]
        exact hst'

/-- `start_service` preserves the invariant, given spawn freshness. -/
theorem invariant_start_service (m : ServiceManager) (name : RStr)
    (res : SpawnResult) (hInv : Invariant m) (hfresh : SpawnFresh m res) :
    Invariant (start_service m name res) := by
  unfold start_service
  cases hc : alookup m.configs name with
  | none => exact hInv
  | some cfg =>
    cases hs : alookup m.states name with
    | none => exact hInv
    | some st =>
      show Invariant
        { m with
          states := aupdate m.states name (launch_service name st m.pid_map res).1,
          pid_map := (launch_service name st m.pid_map res).2 }
      by_cases hrun : st.status = ServiceStatus.Running
      · have hl : launch_service name st m.pid_map res = (st, m.pid_map) := by
          unfold launch_service
          rw [if_pos hrun]
        rw [hl]
        show Invariant { m with states := aupdate m.states name st, pid_map := m.pid_map }
        rw [aupdate_self hs]
        exact hInv
      · cases res with
        | err =>
          have hl : launch_service name st m.pid_map .err = (st, m.pid_map) := by
            unfold launch_service
            rw [if_neg hrun]
          rw [hl]
          show Invariant { m with states := aupdate m.states name st, pid_map := m.pid_map }
          rw [aupdate_self hs]
          exact hInv
        | ok p =>
          have hl : launch_service name st m.pid_map (.ok p) =
              ({ pid := some p, status := .Running }, aupdate m.pid_map p name) := by
            unfold launch_service
            rw [if_neg hrun]
          rw [hl]
          show Invariant
            { m with
              states := aupdate m.states name { pid := some p, status := .Running },
              pid_map := aupdate m.pid_map p name }
          have hc' : name ∈ akeys m.configs :=
            alookup_isSome_iff_mem_keys.mp (by rw [hc]; rfl)
          exact invariant_insert hInv hc' hs hrun hfresh

/-- `handle_process_exit` preserves the invariant unconditionally. -/
theorem invariant_handle_process_exit (m : ServiceManager) (ws : WaitStatus)
    (hInv : Invariant m) : Invariant (handle_process_exit m ws) := by
  unfold handle_process_exit
  split
  · exact hInv
  · next pid hp =>
    split
    · exact hInv
    · next name hn =>
      obtain ⟨h1, h2, h3, h4, h5, h6, h7, h8⟩ := hInv
      obtain ⟨st, hst, hpid⟩ := h8 (pid, name) (alookup_eq_some_mem hn)
      have hst2 : alookup m.states name = some st := hst
      have hpid2 : st.pid = some pid := hpid
      have hsname : name ∈ akeys m.states :=
        alookup_isSome_iff_mem_keys.mp (by rw [hst2]; rfl)
      rw [hst2]
      show Invariant
        { m with
          pid_map := aremove m.pid_map pid,
          states := aupdate m.states name { pid := none, status := .Stopped } }
      refine ⟨h1, nodup_akeys_aupdate _ h2, nodup_akeys_aremove _ h3, ?_, ?_, ?_, ?_, ?_⟩
      · intro e he
        rcases mem_aupdate_elim h2 he with h | h
        · subst h
          exact h4 (name, st) (alookup_eq_some_mem hst2)
        · exact h4 e h.1
      · intro e he
        rw [akeys_aupdate_mem _ hsname]
        exact h5 e he
      · intro e he
        rcases mem_aupdate_elim h2 he with h | h
        · subst h
          simp
        · exact h6 e h.1
      · intro e he q hq
        rcases mem_aupdate_elim h2 he with h | h
        · subst h
          cases hq
        · have hold := h7 e h.1 q hq
          by_cases hqp : q = pid
          · subst hqp
            rw [hn] at hold
            have hname : name = e.1 := by injection hold
            exact absurd hname.symm h.2
          · rw [alookup_aremove_ne hqp]
            exact hold
      · intro e he
        obtain ⟨hem, hep⟩ := mem_aremove_iff.mp he
        obtain ⟨st2, hst3, hpid3⟩ := h8 e hem
        by_cases hen : e.2 = name
        · rw [hen, hst2] at hst3
          have hss : st = st2 := by injection hst3
          subst hss
          rw [hpid2] at hpid3
          have hpe : pid = e.1 := by injection hpid3
          exact absurd hpe.symm hep
        · refine ⟨st2, ?_, hpid3⟩
          rw [alookup_aupdate_ne _ hen]
          exact hst3

/-- `reap_zombies` preserves the invariant for any waitpid stream. -/
theorem invariant_reap_zombies (m : ServiceManager) (q : List WaitResult)
    (hInv : Invariant m) : Invariant (reap_zombies m q) := by
  induction q generalizing m with
  | nil => exact hInv
  | cons r rest ih =>
    cases r with
    | ok ws =>
      cases ws with
      | stillAlive => exact hInv
      | exited p => exact ih _ (invariant_handle_process_exit m (.exited p) hInv)
      | signaled p => exact ih _ (invariant_handle_process_exit m (.signaled p) hInv)
    | echild => exact hInv
    | errOther => exact hInv

/-- One insertion step of `ServiceManager::new` keeps the all-Stopped
start-up shape: invariant, empty reverse index, default states. -/
theorem invariant_new_step (m : ServiceManager) (sc : ServiceConfig)
    (hInv : Invariant m) (hpm : m.pid_map = [])
    (hdef : ∀ e ∈ m.states, e.2 = ServiceState.default) :
    Invariant (new_step m sc) ∧ (new_step m sc).pid_map = [] ∧
      ∀ e ∈ (new_step m sc).states, e.2 = ServiceState.default := by
  obtain ⟨h1, h2, h3, h4, h5, h6, h7, h8⟩ := hInv
  refine ⟨⟨nodup_akeys_aupdate _ h1, nodup_akeys_aupdate _ h2, h3, ?_, ?_, ?_, ?_, ?_⟩,
    hpm, ?_⟩
  · intro e he
    rcases mem_aupdate_elim h2 he with h | h
    · subst h
      exact mem_akeys_aupdate_self _ _ _
    · exact mem_akeys_aupdate _ _ (h4 e h.1)
  · intro e he
    rcases mem_aupdate_elim h1 he with h | h
    · subst h
      exact mem_akeys_aupdate_self _ _ _
    · exact mem_akeys_aupdate _ _ (h5 e h.1)
  · intro e he
    rcases mem_aupdate_elim h2 he with h | h
    · subst h
      simp [ServiceState.default]
    · exact h6 e h.1
  · intro e he q hq
    rcases mem_aupdate_elim h2 he with h | h
    · subst h
      simp [ServiceState.default] at hq
    · exact h7 e h.1 q hq
  · intro e he
    rw [show (new_step m sc).pid_map = m.pid_map from rfl, hpm] at he
    simp at he
  · intro e he
    rcases mem_aupdate_elim h2 he with h | h
    · subst h
      rfl
    · exact hdef e h.1

theorem invariant_new_aux (l : List ServiceConfig) :
    ∀ m : ServiceManager, Invariant m → m.pid_map = [] →
      (∀ e ∈ m.states, e.2 = ServiceState.default) →
      Invariant (List.foldl new_step m l) := by
  induction l with
  | nil =>
    intro m h _ _
    exact h
  | cons sc rest ih =>
    intro m h hp hd
    rw [List.foldl_cons]
    obtain ⟨hI, hP, hD⟩ := invariant_new_step m sc h hp hd
    exact ih _ hI hP hD

/-- The initial table built by `ServiceManager::new` satisfies the
invariant: every service `Stopped`, no pid, empty reverse index. -/
theorem invariant_new (config : SimaConfig) : Invariant (ServiceManager.new config) := by
  refine invariant_new_aux config.services _ ?_ rfl ?_
  · refine ⟨List.nodup_nil, List.nodup_nil, List.nodup_nil, ?_, ?_, ?_, ?_, ?_⟩
    · intro e he
      cases he
    · intro e he
      cases he
    · intro e he
      cases he
    · intro e he
      cases he
    · intro e he
      cases he
  · intro e he
    cases he

/-- Every event-loop operation preserves the invariant. -/
theorem invariant_applyEvent (m : ServiceManager) (ev : Event)
    (hInv : Invariant m) (hok : EventOk m ev) : Invariant (applyEvent m ev) := by
  cases ev with
  | start name res => exact invariant_start_service m name res hInv hok
  | stop name =>
    show Invariant (stop_service m name).1
    rw [stop_service_fst]
    exact hInv
  | restart name res =>
    show Invariant (restart_service m name res).1
    unfold restart_service
    show Invariant (start_service (stop_service m name).1 name res)
    rw [stop_service_fst]
    exact invariant_start_service m name res hInv hok
  | status => exact hInv
  | reap queue => exact invariant_reap_zombies m queue hInv

/-! ## Wire protocol types and the control server (`sima-proto`, `ipc.rs`) -/

/-- `Request` from `sima-proto/src/lib.rs` (lines 5-14). -/
inductive Request where
  | Start (name : RStr)
  | Stop (name : RStr)
  | Restart (name : RStr)
  | Status
  | Poweroff
  | Reboot
  | SoftReboot
deriving DecidableEq, Repr

/-- `Response` from `sima-proto/src/lib.rs` (lines 16-21). -/
inductive Response where
  | Ok
  | Error (msg : RStr)
  | StatusReport (statuses : List ServiceInfo)
deriving DecidableEq, Repr

/-- Capacity of the supervisor's command queue:
`mpsc::channel::<IpcCommand>(32)` in `event_loop` (service.rs line 197). -/
def channel_capacity : Nat := 32

/-- State of the bounded tokio mpsc channel between the control server
and the supervisor. -/
structure CmdQueue where
  closed : Bool
  buf : List IpcCommand
deriving DecidableEq, Repr

/-- `tokio::sync::mpsc::Sender::send(...).await`: fails exactly when the
channel is closed (the receiver was dropped).  When the buffer already
holds `channel_capacity` commands the call suspends until space frees
and then succeeds; the await is invisible in this synchronous model, so
a send on an open queue always enqueues. -/
def sendCmd (q : CmdQueue) (c : IpcCommand) : Option CmdQueue :=
  if q.closed then none else some { q with buf := q.buf ++ [c] }

/-- The bytes of the string literal `"Internal error"` in
`ipc.rs::process_request`. -/
def internalErrorMsg : RStr :=
  [73, 110, 116, 101, 114, 110, 97, 108, 32, 101, 114, 114, 111, 114]

/-- The bytes of `"Failed to get status"` (ipc.rs line 92). -/
def failedStatusMsg : RStr :=
  [70, 97, 105, 108, 101, 100, 32, 116, 111, 32, 103, 101, 116, 32, 115, 116, 97, 116, 117, 115]

/-- Modelled from the spec: §4.4 claims the server responds with
`Error("internal error")` (lower-case) on a full queue.  These are the
UTF-8 bytes of that spec-side message, kept for comparison with the
code's `internalErrorMsg`. -/
def specQueueFullMsg : RStr :=
  [105, 110, 116, 101, 114, 110, 97, 108, 32, 101, 114, 114, 111, 114]

/-- `process_request` from `ipc.rs` (lines 65-114): translate the
request to an `IpcCommand`, send it on the queue, answer `Ok` (or the
status report) on success and `Error("Internal error")` when the send
fails.  `statusReply` models the value received on the oneshot channel
for `Status` (`none` = the supervisor dropped the sender). -/
def process_request (req : Request) (q : CmdQueue)
    (statusReply : Option (List ServiceInfo)) : Response × CmdQueue :=
  match req with
  | .Start name =>
    match sendCmd q (.start name) with
    | none => (.Error internalErrorMsg, q)
    | some q' => (.Ok, q')
  | .Stop name =>
    match sendCmd q (.stop name) with
    | none => (.Error internalErrorMsg, q)
    | some q' => (.Ok, q')
  | .Restart name =>
    match sendCmd q (.restart name) with
    | none => (.Error internalErrorMsg, q)
    | some q' => (.Ok, q')
  | .Status =>
    match sendCmd q .status with
    | none => (.Error internalErrorMsg, q)
    | some q' =>
      match statusReply with
      | some sts => (.StatusReport sts, q')
      | none => (.Error failedStatusMsg, q')
  | .Poweroff =>
    match sendCmd q .poweroff with
    | none => (.Error internalErrorMsg, q)
    | some q' => (.Ok, q')
  | .Reboot =>
    match sendCmd q .reboot with
    | none => (.Error internalErrorMsg, q)
    | some q' => (.Ok, q')
  | .SoftReboot =>
    match sendCmd q .softReboot with
    | none => (.Error internalErrorMsg, q)
    | some q' => (.Ok, q')

/-! ## Configuration loading (`config.rs`) -/

/-- The `collect::<Result<Vec<ServiceConfig>>>()` step of
`SimaConfig::load`: first parse error wins, otherwise all configs in
manifest order. -/
def collectConfigs : List (Except Unit ServiceConfig) → Except Unit (List ServiceConfig)
  | [] => .ok []
  | .error e :: _ => .error e
  | .ok c :: rest =>
    match collectConfigs rest with
    | .ok l => .ok (c :: l)
    | .error e => .error e

/-- `SimaConfig::load` (config.rs lines 31-44), over the parse outcome
of each service file listed in the manifest.  The function only
collects the per-file results; it performs no duplicate-name check. -/
def SimaConfig.load (parsed : List (Except Unit ServiceConfig)) : Except Unit SimaConfig :=
  match collectConfigs parsed with
  | .ok services => .ok { services := services }
  | .error e => .error e

/-! ## Shutdown coordinator (`service.rs::perform_shutdown`) -/

/-- Events the supervisor can observe while blocked inside
`perform_shutdown`'s wait loop: a SIGCHLD notification (with the
waitpid stream the subsequent `reap_zombies` drains) or the firing of
the 10-second `tokio::time::timeout`. -/
inductive ShutdownEvent where
  | sigchld (queue : List WaitResult)
  | timeoutFired
deriving DecidableEq, Repr

/-- `Duration::from_secs(10)` (service.rs line 286). -/
def shutdown_timeout_secs : Nat := 10

/-- `ServiceManager::broadcast_signal` (service.rs lines 309-319): send
the signal to the process group `-pid` of every entry of the reverse
index. -/
def broadcast_signal (m : ServiceManager) (sig : Sig) : List SAction :=
  m.pid_map.map (fun e => .signalSent sig (-e.1))

/-- The `timeout(shutdown_timeout, loop { ... })` wait of
`perform_shutdown` (service.rs lines 289-298): return as soon as the
reverse index is empty; on a SIGCHLD reap and continue; stop with
`timedOut = true` when the deadline fires (an exhausted event list
means no further child ever exits, so the deadline fires then too). -/
def shutdown_wait : ServiceManager → List ShutdownEvent → ServiceManager × Bool
  | m, [] => (m, !m.pid_map.isEmpty)
  | m, ev :: rest =>
    if m.pid_map.isEmpty then (m, false)
    else
      match ev with
      | .timeoutFired => (m, true)
      | .sigchld q => shutdown_wait (reap_zombies m q) rest

/-- `ServiceManager::perform_shutdown` (service.rs lines 283-307):
broadcast SIGTERM to every tracked process group, wait (bounded) for
the reverse index to empty, and on timeout broadcast SIGKILL to the
remaining groups and reap once more.  Returns the final table, the
trace of actions performed, and whether the wait timed out.  The
function neither receives from the command queue nor touches it, which
the action trace makes explicit. -/
def perform_shutdown (m : ServiceManager) (script : List ShutdownEvent)
    (killQueue : List WaitResult) : ServiceManager × List SAction × Bool :=
  let sigs1 := broadcast_signal m .SIGTERM
  let r := shutdown_wait m script
  if r.2 then
    (reap_zombies r.1 killQueue, sigs1 ++ broadcast_signal r.1 .SIGKILL, true)
  else
    (r.1, sigs1, false)

/-- If the wait loop returned without timing out, the reverse index is
empty. -/
theorem shutdown_wait_graceful :
    ∀ (script : List ShutdownEvent) (m : ServiceManager),
      (shutdown_wait m script).2 = false → (shutdown_wait m script).1.pid_map = [] := by
  intro script
  induction script with
  | nil =>
    intro m h
    simp only [shutdown_wait, Bool.not_eq_false'] at h
    exact List.isEmpty_iff.mp h
  | cons ev rest ih =>
    intro m h
    simp only [shutdown_wait] at h ⊢
    by_cases he : m.pid_map.isEmpty
    · rw [if_pos he]
      exact List.isEmpty_iff.mp he
    · rw [if_neg he] at h ⊢
      cases ev with
      | timeoutFired => cases h
      | sigchld q => exact ih _ h

/-! ## Postcard-style wire codec (`sima-proto`, `encode`/`decode`)

Postcard serialises enums as a varint discriminant followed by the
variant's fields, strings as a varint byte length followed by the UTF-8
bytes, `Option` as a `0`/`1` byte followed by the payload, `bool` as a
`0`/`1` byte, `i32` as a zigzag varint and `Vec` as a varint length
followed by the elements.  Bytes are `Nat`s below 256; an LEB128 varint
byte is `chunk + 128` for every chunk but the last. -/

def encodeVarint (n : Nat) : List Nat :=
  if h : n < 128 then [n]
  else (n % 128 + 128) :: encodeVarint (n / 128)
termination_by n
decreasing_by
  exact Nat.div_lt_self (by omega) (by omega)

def decodeVarint : List Nat → Option (Nat × List Nat)
  | [] => none
  | b :: rest =>
    if b < 128 then some (b, rest)
    else
      match decodeVarint rest with
      | some (n, r) => some (n * 128 + (b - 128), r)
      | none => none

theorem decodeVarint_append (n : Nat) (rest : List Nat) :
    decodeVarint (encodeVarint n ++ rest) = some (n, rest) := by
  induction n using Nat.strong_induction_on with
  | _ n ih =>
    rw [encodeVarint]
    by_cases h : n < 128
    · rw [dif_pos h]
      simp [decodeVarint, h]
    · rw [dif_neg h]
      have hb : ¬(n % 128 + 128 < 128) := by omega
      rw [List.cons_append]
      simp only [decodeVarint]
      rw [if_neg hb, ih (n / 128) (Nat.div_lt_self (by omega) (by omega))]
      have harith : n / 128 * 128 + (n % 128 + 128 - 128) = n := by omega
      show some (n / 128 * 128 + (n % 128 + 128 - 128), rest) = some (n, rest)
      rw [harith]

def encodeBytes (s : List Nat) : List Nat := encodeVarint s.length ++ s

def decodeBytes (bs : List Nat) : Option (List Nat × List Nat) :=
  (decodeVarint bs).bind (fun x =>
    if x.1 ≤ x.2.length then some (x.2.take x.1, x.2.drop x.1) else none)

theorem decodeBytes_append (s rest : List Nat) :
    decodeBytes (encodeBytes s ++ rest) = some (s, rest) := by
  rw [encodeBytes, List.append_assoc, decodeBytes, decodeVarint_append]
  have hle : s.length ≤ (s ++ rest).length := by simp
  simp [hle, List.take_left, List.drop_left]

def zigzag (i : Int) : Nat :=
  if 0 ≤ i then (2 * i).toNat else (-(2 * i) - 1).toNat

def unzigzag (n : Nat) : Int :=
  if n % 2 = 0 then ((n / 2 : Nat) : Int) else -((n / 2 : Nat) : Int) - 1

theorem unzigzag_zigzag (i : Int) : unzigzag (zigzag i) = i := by
  unfold zigzag unzigzag
  by_cases h : 0 ≤ i
  · rw [if_pos h]
    have h2 : (2 * i).toNat % 2 = 0 := by omega
    rw [if_pos h2]
    omega
  · rw [if_neg h]
    have h2 : ¬((-(2 * i) - 1).toNat % 2 = 0) := by omega
    rw [if_neg h2]
    omega

def encodeOptPid : Option Int → List Nat
  | none => [0]
  | some i => 1 :: encodeVarint (zigzag i)

def decodeOptPid : List Nat → Option (Option Int × List Nat)
  | 0 :: rest => some (none, rest)
  | 1 :: rest =>
    (decodeVarint rest).map (fun x => (some (unzigzag x.1), x.2))
  | _ => none

theorem decodeOptPid_append (o : Option Int) (rest : List Nat) :
    decodeOptPid (encodeOptPid o ++ rest) = some (o, rest) := by
  cases o with
  | none => rfl
  | some i =>
    show decodeOptPid (1 :: (encodeVarint (zigzag i) ++ rest)) = some (some i, rest)
    simp [decodeOptPid, decodeVarint_append, unzigzag_zigzag]

def encodeBool (b : Bool) : List Nat := [if b then 1 else 0]

def decodeBool : List Nat → Option (Bool × List Nat)
  | 0 :: rest => some (false, rest)
  | 1 :: rest => some (true, rest)
  | _ => none

theorem decodeBool_append (b : Bool) (rest : List Nat) :
    decodeBool (encodeBool b ++ rest) = some (b, rest) := by
  cases b <;> rfl

def encodeServiceInfo (si : ServiceInfo) : List Nat :=
  encodeBytes si.name ++ encodeOptPid si.pid ++ encodeBool si.running

def decodeServiceInfo (bs : List Nat) : Option (ServiceInfo × List Nat) :=
  (decodeBytes bs).bind (fun x =>
    (decodeOptPid x.2).bind (fun y =>
      (decodeBool y.2).map (fun z =>
        ({ name := x.1, pid := y.1, running := z.1 }, z.2))))

theorem decodeServiceInfo_append (si : ServiceInfo) (rest : List Nat) :
    decodeServiceInfo (encodeServiceInfo si ++ rest) = some (si, rest) := by
  simp [encodeServiceInfo, decodeServiceInfo, List.append_assoc,
    decodeBytes_append, decodeOptPid_append, decodeBool_append]

def encodeListSI (l : List ServiceInfo) : List Nat :=
  encodeVarint l.length ++ (l.map encodeServiceInfo).flatten

def decodeListSI : Nat → List Nat → Option (List ServiceInfo × List Nat)
  | 0, bs => some ([], bs)
  | n + 1, bs =>
    (decodeServiceInfo bs).bind (fun x =>
      (decodeListSI n x.2).map (fun y => (x.1 :: y.1, y.2)))

theorem decodeListSI_append (l : List ServiceInfo) (rest : List Nat) :
    decodeListSI l.length ((l.map encodeServiceInfo).flatten ++ rest) = some (l, rest) := by
  induction l with
  | nil => rfl
  | cons si tl ih =>
    simp [decodeListSI, List.flatten, List.append_assoc, decodeServiceInfo_append, ih]

/-- `encode::<Request>` (postcard layout of `sima-proto`'s `Request`). -/
def encode_request : Request → List Nat
  | .Start n => encodeVarint 0 ++ encodeBytes n
  | .Stop n => encodeVarint 1 ++ encodeBytes n
  | .Restart n => encodeVarint 2 ++ encodeBytes n
  | .Status => encodeVarint 3
  | .Poweroff => encodeVarint 4
  | .Reboot => encodeVarint 5
  | .SoftReboot => encodeVarint 6

/-- `decode::<Request>`. -/
def decode_request (bs : List Nat) : Option (Request × List Nat) :=
  (decodeVarint bs).bind (fun x =>
    match x.1 with
    | 0 => (decodeBytes x.2).map (fun y => (Request.Start y.1, y.2))
    | 1 => (decodeBytes x.2).map (fun y => (Request.Stop y.1, y.2))
    | 2 => (decodeBytes x.2).map (fun y => (Request.Restart y.1, y.2))
    | 3 => some (.Status, x.2)
    | 4 => some (.Poweroff, x.2)
    | 5 => some (.Reboot, x.2)
    | 6 => some (.SoftReboot, x.2)
    | _ => none)

/-- `encode::<Response>`. -/
def encode_response : Response → List Nat
  | .Ok => encodeVarint 0
  | .Error msg => encodeVarint 1 ++ encodeBytes msg
  | .StatusReport l => encodeVarint 2 ++ encodeListSI l

/-- `decode::<Response>`. -/
def decode_response (bs : List Nat) : Option (Response × List Nat) :=
  (decodeVarint bs).bind (fun x =>
    match x.1 with
    | 0 => some (.Ok, x.2)
    | 1 => (decodeBytes x.2).map (fun y => (Response.Error y.1, y.2))
    | 2 =>
      (decodeVarint x.2).bind (fun y =>
        (decodeListSI y.1 y.2).map (fun z => (Response.StatusReport z.1, z.2)))
    | _ => none)

theorem decode_request_append (r : Request) (rest : List Nat) :
    decode_request (encode_request r ++ rest) = some (r, rest) := by
  cases r <;>
    simp [encode_request, decode_request, List.append_assoc,
      decodeVarint_append, decodeBytes_append]

theorem decode_response_append (resp : Response) (rest : List Nat) :
    decode_response (encode_response resp ++ rest) = some (resp, rest) := by
  cases resp with
  | Ok =>
    simp [encode_response, decode_response, decodeVarint_append]
  | Error msg =>
    simp [encode_response, decode_response, List.append_assoc,
      decodeVarint_append, decodeBytes_append]
  | StatusReport l =>
    simp [encode_response, decode_response, encodeListSI, List.append_assoc,
      decodeVarint_append, decodeListSI_append]

/-! ## Behavioural equations of the operations -/

/-- Unknown name: `start_service` warns and returns, table unchanged. -/
theorem start_service_unknown_eq (m : ServiceManager) (name : RStr) (res : SpawnResult)
    (hc : alookup m.configs name = none) : start_service m name res = m := by
  unfold start_service
  rw [hc]

/-- `Start` of a `Running` service is a no-op on the table. -/
theorem start_service_running_eq (m : ServiceManager) (name : RStr) (res : SpawnResult)
    (st : ServiceState) (hs : alookup m.states name = some st)
    (hrun : st.status = ServiceStatus.Running) : start_service m name res = m := by
  unfold start_service
  cases hc : alookup m.configs name with
  | none => rfl
  | some cfg =>
    rw [hs]
    show { m with
        states := aupdate m.states name (launch_service name st m.pid_map res).1,
        pid_map := (launch_service name st m.pid_map res).2 } = m
    have hl : launch_service name st m.pid_map res = (st, m.pid_map) := by
      unfold launch_service
      rw [if_pos hrun]
    rw [hl]
    show { m with states := aupdate m.states name st, pid_map := m.pid_map } = m
    rw [aupdate_self hs]

/-- A failed spawn never changes the table, whatever the state. -/
theorem start_service_err (m : ServiceManager) (name : RStr) :
    start_service m name SpawnResult.err = m := by
  unfold start_service
  cases hc : alookup m.configs name with
  | none => rfl
  | some cfg =>
    cases hs : alookup m.states name with
    | none => rfl
    | some st =>
      show { m with
          states := aupdate m.states name (launch_service name st m.pid_map .err).1,
          pid_map := (launch_service name st m.pid_map .err).2 } = m
      have hl : launch_service name st m.pid_map .err = (st, m.pid_map) := by
        unfold launch_service
        by_cases hrun : st.status = ServiceStatus.Running
        · rw [if_pos hrun]
        · rw [if_neg hrun]
      rw [hl]
      show { m with states := aupdate m.states name st, pid_map := m.pid_map } = m
      rw [aupdate_self hs]

/-- A successful spawn of a non-running configured service: the state
becomes `Running` with the new pid, which enters the reverse index. -/
theorem start_service_ok_eq (m : ServiceManager) (name : RStr) (st : ServiceState)
    (cfg : ServiceConfig) (p : Int)
    (hc : alookup m.configs name = some cfg)
    (hs : alookup m.states name = some st)
    (hrun : st.status ≠ ServiceStatus.Running) :
    start_service m name (SpawnResult.ok p) =
      { m with
        states := aupdate m.states name { pid := some p, status := .Running },
        pid_map := aupdate m.pid_map p name } := by
  unfold start_service
  rw [hc, hs]
  show { m with
      states := aupdate m.states name (launch_service name st m.pid_map (.ok p)).1,
      pid_map := (launch_service name st m.pid_map (.ok p)).2 } = _
  have hl : launch_service name st m.pid_map (.ok p) =
      ({ pid := some p, status := .Running }, aupdate m.pid_map p name) := by
    unfold launch_service
    rw [if_neg hrun]
  rw [hl]

/-! ## Concrete fixtures for witnesses and counterexamples -/

/-- The service name `"a"`. -/
def aName : RStr := [97]

/-- The service name `"b"` (not configured in the fixtures). -/
def bName : RStr := [98]

/-- A service file: `name: a`, `cmdline: sleep` (bytes of `"sleep"`). -/
def cfgA : ServiceConfig :=
  { name := aName, description := none, cmdline := [115, 108, 101, 101, 112] }

/-- A second service file that reuses the name `a` with `cmdline: ls`. -/
def cfgA2 : ServiceConfig :=
  { name := aName, description := none, cmdline := [108, 115] }

/-- The freshly loaded one-service table. -/
def mA : ServiceManager := ServiceManager.new { services := [cfgA] }

/-- A table in which service `a` runs with pid 7. -/
def mRun : ServiceManager :=
  { configs := [(aName, cfgA)],
    states := [(aName, { pid := some 7, status := .Running })],
    pid_map := [(7, aName)] }

/-- An open command queue with free capacity. -/
def openQueue : CmdQueue := { closed := false, buf := [] }

/-- An open command queue filled to `channel_capacity`. -/
def fullQueue : CmdQueue :=
  { closed := false, buf := List.replicate channel_capacity IpcCommand.status }

/-- A closed command queue (supervisor receiver dropped). -/
def closedQueue : CmdQueue := { closed := true, buf := [] }

/-! ## Claims -/

/-- C1: the service-table invariant — for every configured name the
state is `Running` iff it holds a pid iff the reverse index maps that
pid back to the name, no pid occurs twice in the reverse index, and a
non-`Running` state holds no pid and no reverse-index entry — holds for
the initial all-`Stopped` table built by `ServiceManager::new` and is
preserved by every supervisor operation (launch/start, stop, restart,
status, reap) at each event-loop boundary, under the kernel guarantee
that spawned pids are fresh. -/
theorem service_table_invariant :
    (∀ config : SimaConfig, Invariant (ServiceManager.new config)) ∧
    (∀ (m : ServiceManager) (ev : Event),
      Invariant m → EventOk m ev → Invariant (applyEvent m ev)) :=
  ⟨invariant_new, invariant_applyEvent⟩

/-- Witness for C1: the invariant after starting service `a` (spawned
as pid 5) on the freshly loaded table. -/
theorem service_table_invariant_witness :
    Invariant (applyEvent (ServiceManager.new { services := [cfgA] })
      (Event.start aName (SpawnResult.ok 5))) :=
  service_table_invariant.2 _ _
    (service_table_invariant.1 { services := [cfgA] })
    (show alookup (ServiceManager.new { services := [cfgA] }).pid_map 5 = none from rfl)

/-- Counterexample for C2: the code's `ServiceStatus` has no `Errored`
variant, and a failed spawn does not transition the state at all: from
`Stopped` the service stays exactly `Stopped` with no pid, the whole
table unchanged. -/
theorem spawn_failure_not_errored_counterexample :
    start_service mA aName SpawnResult.err = mA ∧
    alookup (start_service mA aName SpawnResult.err).states aName =
      some { pid := none, status := ServiceStatus.Stopped } := by
  constructor
  · decide
  · decide

/-- C2 (amended): a failed spawn leaves the service `Stopped` (the code
has no `Errored` status; the error is only logged), the failure is
non-fatal (the operation returns with the table intact), and a later
operator-initiated `Start` retries the spawn, making the service
`Running` with the fresh pid on success. -/
theorem spawn_failure_recovery (m : ServiceManager) (name : RStr)
    (st : ServiceState) (cfg : ServiceConfig) (p : Int)
    (hc : alookup m.configs name = some cfg)
    (hs : alookup m.states name = some st)
    (hstop : st.status = ServiceStatus.Stopped) :
    start_service m name SpawnResult.err = m ∧
    alookup (start_service m name (SpawnResult.ok p)).states name =
      some { pid := some p, status := ServiceStatus.Running } ∧
    alookup (start_service m name (SpawnResult.ok p)).pid_map p = some name := by
  have hrun : st.status ≠ ServiceStatus.Running := by
    rw [hstop]
    exact fun h => ServiceStatus.noConfusion h
  refine ⟨start_service_err m name, ?_, ?_⟩
  · rw [start_service_ok_eq m name st cfg p hc hs hrun]
    exact alookup_aupdate_self _ _ _
  · rw [start_service_ok_eq m name st cfg p hc hs hrun]
    exact alookup_aupdate_self _ _ _

/-- Witness for C2 (amended) on the freshly loaded table. -/
theorem spawn_failure_recovery_witness :
    start_service mA aName SpawnResult.err = mA ∧
    alookup (start_service mA aName (SpawnResult.ok 5)).states aName =
      some { pid := some 5, status := ServiceStatus.Running } ∧
    alookup (start_service mA aName (SpawnResult.ok 5)).pid_map 5 = some aName :=
  spawn_failure_recovery mA aName ServiceState.default cfgA 5
    (by decide) (by decide) (by decide)

/-- Counterexample for C3: with the queue full (32 queued commands) but
the channel open, `process_request` still answers `Ok` and enqueues the
command — `tokio::mpsc::Sender::send` awaits capacity instead of
failing; and the error answered when the channel is closed is
`"Internal error"`, not the spec's `"internal error"`. -/
theorem queue_full_counterexample :
    process_request (Request.Start aName) fullQueue none =
      (Response.Ok,
        { closed := false, buf := fullQueue.buf ++ [IpcCommand.start aName] }) ∧
    process_request (Request.Start aName) closedQueue none =
      (Response.Error internalErrorMsg, closedQueue) ∧
    internalErrorMsg ≠ specQueueFullMsg := by
  refine ⟨?_, ?_, ?_⟩
  · decide
  · decide
  · decide

/-- C3 (amended): a send on the bounded (capacity 32) command queue
fails only when the channel is closed, in which case the client gets
`Error("Internal error")`, the queue is unchanged and the command never
reaches the supervisor, so the service table cannot change; when the
channel is open the send waits for capacity if necessary, the command
is appended and the client gets `Ok`. -/
theorem queue_send_semantics (q : CmdQueue) (reply : Option (List ServiceInfo))
    (name : RStr) :
    (∀ req, q.closed = true →
      process_request req q reply = (Response.Error internalErrorMsg, q)) ∧
    (q.closed = false →
      process_request (Request.Start name) q reply =
        (Response.Ok, { closed := false, buf := q.buf ++ [IpcCommand.start name] })) ∧
    channel_capacity = 32 := by
  refine ⟨?_, ?_, rfl⟩
  · intro req hcl
    cases req <;> simp [process_request, sendCmd, hcl]
  · intro hop
    simp [process_request, sendCmd, hop]

/-- Witness for C3 (amended): the closed-channel error and the
successful enqueue on the full-but-open queue. -/
theorem queue_send_semantics_witness :
    process_request (Request.Stop aName) closedQueue none =
      (Response.Error internalErrorMsg, closedQueue) ∧
    process_request (Request.Start aName) fullQueue none =
      (Response.Ok, { closed := false, buf := fullQueue.buf ++ [IpcCommand.start aName] }) :=
  ⟨(queue_send_semantics closedQueue none aName).1 (Request.Stop aName) rfl,
   (queue_send_semantics fullQueue none aName).2.1 rfl⟩

/-- C4: once entered, the shutdown coordinator first broadcasts SIGTERM
to every process group of the reverse index; it then waits for the
reverse index to empty by repeatedly awaiting SIGCHLD and reaping,
bounded by the `shutdown_timeout_secs = 10` second deadline; if the
deadline fires first it broadcasts SIGKILL to every remaining group and
reaps once more; its whole action trace contains no command processing,
so no ControlRequest is handled between the broadcast and the
post-shutdown action; and a wait that returns without timing out left
the reverse index empty. -/
theorem shutdown_coordinator_spec (m : ServiceManager)
    (script : List ShutdownEvent) (killQueue : List WaitResult)
    (m1 : ServiceManager) (t : Bool)
    (hw : shutdown_wait m script = (m1, t)) :
    perform_shutdown m script killQueue =
      (if t then reap_zombies m1 killQueue else m1,
       broadcast_signal m Sig.SIGTERM ++
         (if t then broadcast_signal m1 Sig.SIGKILL else []),
       t) ∧
    (∀ c : IpcCommand,
      SAction.cmdProcessed c ∉ (perform_shutdown m script killQueue).2.1) ∧
    (t = false → m1.pid_map = []) ∧
    shutdown_timeout_secs = 10 := by
  refine ⟨?_, ?_, ?_, rfl⟩
  · unfold perform_shutdown
    rw [hw]
    cases t
    · simp
    · simp
  · intro c
    unfold perform_shutdown
    rw [hw]
    cases t
    · simp [broadcast_signal]
    · simp [broadcast_signal]
  · intro ht
    have hg := shutdown_wait_graceful script m (by rw [hw]; exact ht)
    rw [hw] at hg
    exact hg

/-- Witness for C4: one running service that never exits; the deadline
fires, SIGTERM then SIGKILL go to process group `-7`, and no command is
processed. -/
theorem shutdown_coordinator_spec_witness :
    shutdown_wait mRun [ShutdownEvent.timeoutFired] = (mRun, true) ∧
    perform_shutdown mRun [ShutdownEvent.timeoutFired] [] =
      (mRun,
       [SAction.signalSent Sig.SIGTERM (-7), SAction.signalSent Sig.SIGKILL (-7)],
       true) := by
  refine ⟨by decide, ?_⟩
  have h := (shutdown_coordinator_spec mRun [ShutdownEvent.timeoutFired] [] mRun true
    (by decide)).1
  simpa using h

/-- Reaping a pid that the reverse index knows: the entry is removed
and the owning service's state (which exists) becomes `Stopped`. -/
theorem handle_process_exit_known (m : ServiceManager) (p : Int) (name : RStr)
    (st : ServiceState)
    (hn : alookup m.pid_map p = some name)
    (hst : alookup m.states name = some st) :
    handle_process_exit m (WaitStatus.exited p) =
      { m with
        pid_map := aremove m.pid_map p,
        states := aupdate m.states name { pid := none, status := .Stopped } } := by
  unfold handle_process_exit
  split
  · next heq => simp [WaitStatus.pidOf] at heq
  · next pid heq =>
    have hpp : pid = p := by
      simp only [WaitStatus.pidOf, Option.some.injEq] at heq
      exact heq.symm
    subst hpp
    split
    · next heq2 =>
      rw [hn] at heq2
      cases heq2
    · next name2 heq2 =>
      rw [hn] at heq2
      have hnn : name = name2 := by injection heq2
      subst hnn
      rw [hst]

/-- Reaping a pid unknown to the reverse index (a reparented orphan) is
a no-op on the table. -/
theorem handle_process_exit_orphan (m : ServiceManager) (p : Int)
    (hn : alookup m.pid_map p = none) :
    handle_process_exit m (WaitStatus.exited p) = m := by
  unfold handle_process_exit
  split
  · rfl
  · next pid heq =>
    have hpp : pid = p := by
      simp only [WaitStatus.pidOf, Option.some.injEq] at heq
      exact heq.symm
    subst hpp
    split
    · rfl
    · next name2 heq2 =>
      rw [hn] at heq2
      cases heq2

/-- C5: the reaper's disposition of every wait status — a pid in the
reverse index is removed from it, and the owning service becomes
`Stopped` with its pid cleared; a pid not in the reverse index
(reparented orphan) changes nothing at all; and reaping when no child
has exited (`StillAlive`, `ECHILD`, or an empty stream) is a no-op on
the whole table. -/
theorem reaper_spec (m : ServiceManager) (p : Int) :
    (∀ name st, alookup m.pid_map p = some name →
      alookup m.states name = some st →
      alookup (handle_process_exit m (WaitStatus.exited p)).pid_map p = none ∧
      alookup (handle_process_exit m (WaitStatus.exited p)).states name =
        some { pid := none, status := ServiceStatus.Stopped }) ∧
    (alookup m.pid_map p = none → handle_process_exit m (WaitStatus.exited p) = m) ∧
    (reap_zombies m [] = m) ∧
    (∀ rest, reap_zombies m (WaitResult.ok WaitStatus.stillAlive :: rest) = m) ∧
    (∀ rest, reap_zombies m (WaitResult.echild :: rest) = m) := by
  refine ⟨?_, handle_process_exit_orphan m p, rfl, fun rest => rfl, fun rest => rfl⟩
  intro name st hn hst
  rw [handle_process_exit_known m p name st hn hst]
  exact ⟨alookup_aremove_self _ _, alookup_aupdate_self _ _ _⟩

/-- Witness for C5 on the one-service running table: reaping pid 7
clears the entry and stops `a`; reaping with nothing pending changes
nothing. -/
theorem reaper_spec_witness :
    alookup mRun.pid_map 7 = some aName ∧
    alookup (handle_process_exit mRun (WaitStatus.exited 7)).pid_map 7 = none ∧
    alookup (handle_process_exit mRun (WaitStatus.exited 7)).states aName =
      some { pid := none, status := ServiceStatus.Stopped } ∧
    reap_zombies mRun [] = mRun := by
  have h := (reaper_spec mRun 7).1 aName { pid := some 7, status := .Running }
    (by decide) (by decide)
  exact ⟨by decide, h.1, h.2, (reaper_spec mRun 7).2.2.1⟩

/-- Counterexample for C6: two parsed service files both named `a`
(different cmdlines) load successfully — no load-time error is
reported — and the resulting table keeps only the later config. -/
theorem duplicate_names_counterexample :
    SimaConfig.load [Except.ok cfgA, Except.ok cfgA2] =
      Except.ok { services := [cfgA, cfgA2] } ∧
    alookup (ServiceManager.new { services := [cfgA, cfgA2] }).configs aName =
      some cfgA2 := by
  constructor
  · rfl
  · decide

/-- C6 (amended): duplicate names across service files are not
detected: loading succeeds whenever every file parses, and
`ServiceManager::new` silently keeps the later file's config for the
shared name (`HashMap::insert` overwrites), with a single table entry
for it. -/
theorem duplicate_names_last_wins (c1 c2 : ServiceConfig)
    (h : c1.name = c2.name) :
    SimaConfig.load [Except.ok c1, Except.ok c2] =
      Except.ok { services := [c1, c2] } ∧
    alookup (ServiceManager.new { services := [c1, c2] }).configs c2.name = some c2 ∧
    akeys (ServiceManager.new { services := [c1, c2] }).configs = [c2.name] := by
  refine ⟨rfl, ?_, ?_⟩
  · show alookup (aupdate (aupdate [] c1.name c1) c2.name c2) c2.name = some c2
    exact alookup_aupdate_self _ _ _
  · show akeys (aupdate (aupdate [] c1.name c1) c2.name c2) = [c2.name]
    have h1 : aupdate ([] : List (RStr × ServiceConfig)) c1.name c1 = [(c1.name, c1)] := rfl
    rw [h1]
    have h2 : aupdate [(c1.name, c1)] c2.name c2 = [(c2.name, c2)] := by
      unfold aupdate
      rw [if_pos h]
    rw [h2]
    rfl

/-- Witness for C6 (amended) at the concrete duplicate pair. -/
theorem duplicate_names_last_wins_witness :
    SimaConfig.load [Except.ok cfgA, Except.ok cfgA2] =
      Except.ok { services := [cfgA, cfgA2] } ∧
    alookup (ServiceManager.new { services := [cfgA, cfgA2] }).configs cfgA2.name =
      some cfgA2 ∧
    akeys (ServiceManager.new { services := [cfgA, cfgA2] }).configs = [cfgA2.name] :=
  duplicate_names_last_wins cfgA cfgA2 (by decide)

/-- C7: the postcard-style codec round-trips: `decode (encode r) = r`
(with the whole buffer consumed) for every `Request` and every
`Response`, including `StatusReport` payloads of arbitrary
`ServiceInfo` lists. -/
theorem codec_round_trip :
    (∀ r : Request, decode_request (encode_request r) = some (r, [])) ∧
    (∀ resp : Response, decode_response (encode_response resp) = some (resp, [])) := by
  constructor
  · intro r
    have h := decode_request_append r []
    simpa using h
  · intro resp
    have h := decode_response_append resp []
    simpa using h

/-- C8: `Start(n)` while `n` is `Running` is a no-op: the whole table —
status, pid and reverse index — is unchanged whatever the would-be
spawn outcome, and the client still receives `Ok` (the control server
acknowledges as soon as the command is queued). -/
theorem start_running_noop (m : ServiceManager) (name : RStr) (st : ServiceState)
    (res : SpawnResult) (q : CmdQueue) (reply : Option (List ServiceInfo))
    (hs : alookup m.states name = some st)
    (hrun : st.status = ServiceStatus.Running)
    (hq : q.closed = false) :
    start_service m name res = m ∧
    (process_request (Request.Start name) q reply).1 = Response.Ok := by
  refine ⟨start_service_running_eq m name res st hs hrun, ?_⟩
  simp [process_request, sendCmd, hq]

/-- Witness for C8: starting the already-running `a` (would-be pid 9)
changes nothing and the client sees `Ok`. -/
theorem start_running_noop_witness :
    start_service mRun aName (SpawnResult.ok 9) = mRun ∧
    (process_request (Request.Start aName) openQueue none).1 = Response.Ok :=
  start_running_noop mRun aName { pid := some 7, status := .Running }
    (SpawnResult.ok 9) openQueue none (by decide) (by decide) (by decide)

/-- C9: `Stop(n)` never mutates the service table; with no pid (not
`Running`, or unknown name) no signal is sent; with pid `p` exactly one
SIGTERM goes to the process group `-p`, and the status, pid and reverse
index stay as they are — only the reaper later performs
`Running → Stopped`. -/
theorem stop_service_frame (m : ServiceManager) (name : RStr) :
    (stop_service m name).1 = m ∧
    (∀ st, alookup m.states name = some st → st.pid = none →
      (stop_service m name).2 = []) ∧
    (alookup m.states name = none → (stop_service m name).2 = []) ∧
    (∀ st p, alookup m.states name = some st → st.pid = some p →
      (stop_service m name).2 = [SAction.signalSent Sig.SIGTERM (-p)]) := by
  refine ⟨stop_service_fst m name, ?_, ?_, ?_⟩
  · intro st hs hp
    simp [stop_service, hs, hp]
  · intro hs
    simp [stop_service, hs]
  · intro st p hs hp
    simp [stop_service, hs, hp]

/-- Witness for C9: stopping the running `a` leaves the table intact
and emits one SIGTERM to group `-7`; stopping the stopped table's `a`
emits nothing. -/
theorem stop_service_frame_witness :
    (stop_service mRun aName).1 = mRun ∧
    (stop_service mRun aName).2 = [SAction.signalSent Sig.SIGTERM (-7)] ∧
    (stop_service mA aName).2 = [] := by
  refine ⟨(stop_service_frame mRun aName).1, ?_, ?_⟩
  · exact (stop_service_frame mRun aName).2.2.2 { pid := some 7, status := .Running } 7
      (by decide) (by decide)
  · exact (stop_service_frame mA aName).2.1 ServiceState.default (by decide) (by decide)

/-- C10: for a name absent from the configured table, `Start`, `Stop`
and `Restart` leave configs, states and the reverse index untouched
(the unknown name is only logged), while the control server still
answers `Ok` to the client once the command is queued. -/
theorem unknown_name_noop (m : ServiceManager) (name : RStr) (res : SpawnResult)
    (q : CmdQueue) (reply : Option (List ServiceInfo))
    (hc : alookup m.configs name = none)
    (hs : alookup m.states name = none)
    (hq : q.closed = false) :
    start_service m name res = m ∧
    stop_service m name = (m, []) ∧
    restart_service m name res = (m, []) ∧
    (process_request (Request.Start name) q reply).1 = Response.Ok ∧
    (process_request (Request.Stop name) q reply).1 = Response.Ok ∧
    (process_request (Request.Restart name) q reply).1 = Response.Ok := by
  have h1 : start_service m name res = m := start_service_unknown_eq m name res hc
  have h2 : stop_service m name = (m, []) := by simp [stop_service, hs]
  refine ⟨h1, h2, ?_, ?_, ?_, ?_⟩
  · unfold restart_service
    rw [h2]
    show (start_service m name res, []) = (m, [])
    rw [h1]
  · simp [process_request, sendCmd, hq]
  · simp [process_request, sendCmd, hq]
  · simp [process_request, sendCmd, hq]

/-- Witness for C10: the unconfigured name `b` against the one-service
table. -/
theorem unknown_name_noop_witness :
    start_service mA bName (SpawnResult.ok 3) = mA ∧
    stop_service mA bName = (mA, []) ∧
    restart_service mA bName (SpawnResult.ok 3) = (mA, []) ∧
    (process_request (Request.Start bName) openQueue none).1 = Response.Ok ∧
    (process_request (Request.Stop bName) openQueue none).1 = Response.Ok ∧
    (process_request (Request.Restart bName) openQueue none).1 = Response.Ok :=
  unknown_name_noop mA bName (SpawnResult.ok 3) openQueue none
    (by decide) (by decide) (by decide)
